import Mathlib

/-!
# EN01_GolangCuba: the ingestion pipeline of `main.go`

A shallow embedding of `validarCPF`, `processarArquivo` and `gravarClientes`
and the properties of the ingestion pipeline proved about them.

Conventions of the embedding.

* A Go `string` holding UTF-8 text is a `List Char`, one `Char` per rune.
  `len(s)` and `s[i]` are *byte* operations in Go, so they go through the
  UTF-8 encoding `bytes` of the string.
* A Go expression that can panic (an index expression) evaluates in `Option`:
  `none` is the run-time panic "index out of range".
* A Go `error` result is an `Option Erro`, `none` being `nil`.
* A slice is a `List`; the `nil` slice is `[]`.
* Go `int` is 64 bits wide; every sum formed by `validarCPF` is at most
  `9 * 63`, so `Int` without wrap-around is exact.
-/

namespace GolangCuba

/-! ## Strings -/

/-- A Go string of UTF-8 text: its runes in order. -/
abbrev Str := List Char

/-- The UTF-8 encoding of one rune, as byte values. -/
def utf8 (c : Char) : List Nat :=
  let n := c.toNat
  if n < 0x80 then [n]
  else if n < 0x800 then [0xC0 + n / 64, 0x80 + n % 64]
  else if n < 0x10000 then [0xE0 + n / 4096, 0x80 + n / 64 % 64, 0x80 + n % 64]
  else [0xF0 + n / 262144, 0x80 + n / 4096 % 64, 0x80 + n / 64 % 64, 0x80 + n % 64]

/-- The bytes of a Go string. -/
def bytes : Str → List Nat
  | [] => []
  | c :: cs => utf8 c ++ bytes cs

/-- Go `len(s)` on a string: the number of bytes. -/
def len (s : Str) : Nat := (bytes s).length

/-- Go `s[i]` on a string: the byte at offset `i`, or a panic. -/
def byteAt (s : Str) (i : Nat) : Option Nat := (bytes s)[i]?

/-- Go `string(b)` for a byte `b`: the string of the one rune with that value. -/
def stringOfByte (b : Nat) : Str := [Char.ofNat b]

/-- Go `x - y` on two `uint8` values. -/
def subByte (x y : Nat) : Nat := (x + 256 - y % 256) % 256

/-! ## Errors -/

/-- The `error` values of the program. `sistema` is an error produced by the
operating system, the reader under the scanner or the database driver;
`tokenLongo` is `bufio.ErrTooLong`; `sintaxe` and `faixa` are the two errors of
`strconv`; the last three are the wrappers built by the `fmt.Errorf` calls of
`gravarClientes`. -/
inductive Erro where
  | sistema (codigo : Nat)
  | tokenLongo
  | sintaxe
  | faixa
  | conectar (causa : Erro)
  | preparar (causa : Erro)
  | inserir (causa : Erro)
  deriving DecidableEq

/-! ## `regexp` and `strconv` -/

/-- The character class `\D` of Go's `regexp`: every rune but `0`..`9`. -/
def naoDigito (c : Char) : Bool := !(decide (48 ≤ c.toNat) && decide (c.toNat ≤ 57))

/-- The call `regexp.MustCompile("\\D").ReplaceAllString(s, "")`: the pattern
matches exactly one rune wherever that rune is in the class, and every match is
replaced by the empty string. -/
def removeNaoDigitos (s : Str) : Str := s.filter (fun c => !naoDigito c)

/-- The value of a run of decimal digit bytes, most significant first; `none`
when a byte is not in `'0'..'9'`. -/
def valorDecimal : List Nat → Nat → Option Nat
  | [], acc => some acc
  | b :: bs, acc =>
    if 48 ≤ b ∧ b ≤ 57 then valorDecimal bs (acc * 10 + (b - 48)) else none

/-- Go `strconv.Atoi` on a 64-bit platform: the value and the error. -/
def Atoi (s : Str) : Int × Option Erro :=
  match bytes s with
  | [] => (0, some Erro.sintaxe)
  | b0 :: resto =>
    let corpo := if b0 = 45 ∨ b0 = 43 then resto else b0 :: resto
    if corpo = [] then (0, some Erro.sintaxe)
    else
      match valorDecimal corpo 0 with
      | none => (0, some Erro.sintaxe)
      | some n =>
        if b0 = 45 then
          if n ≤ 2 ^ 63 then (-(n : Int), none) else (-(2 ^ 63 : Int), some Erro.faixa)
        else
          if n < 2 ^ 63 then ((n : Int), none) else ((2 ^ 63 - 1 : Int), some Erro.faixa)

/-! ## `validarCPF` -/

/-- One of the two loops `for i := 0; i < 9; i++ { num, _ := strconv.Atoi(string(cpf[i]));
d += num * (peso - i) }` of `validarCPF`, started at `d = 0`. -/
def somaPonderada (cpf : Str) (peso : Int) : Option Int :=
  (List.range 9).foldlM
    (fun d i => do
      let b ← byteAt cpf i
      let num := (Atoi (stringOfByte b)).1
      pure (d + num * (peso - (i : Int))))
    (0 : Int)

/-- The statements `d = 11 - (d % 11); if d > 9 { d = 0 }`; Go's `%` truncates. -/
def digitoVerificador (d : Int) : Int :=
  let r := 11 - d.tmod 11
  if r > 9 then 0 else r

/-- The condition of the second `if` of `validarCPF`: the string is one of the
ten sequences of eleven equal digits. -/
def sequenciaDeIguais (cpf : Str) : Bool :=
  decide (cpf = "00000000000".toList ∨ cpf = "11111111111".toList ∨ cpf = "22222222222".toList
    ∨ cpf = "33333333333".toList ∨ cpf = "44444444444".toList ∨ cpf = "55555555555".toList
    ∨ cpf = "66666666666".toList ∨ cpf = "77777777777".toList ∨ cpf = "88888888888".toList
    ∨ cpf = "99999999999".toList)

/-- The function `validarCPF` of `main.go`. -/
def validarCPF (cpf : Str) : Option Bool := do
  let cpf := removeNaoDigitos cpf
  if len cpf ≠ 11 then
    return false
  if sequenciaDeIguais cpf then
    return false
  let s1 ← somaPonderada cpf 10
  let d1 := digitoVerificador s1
  let s2 ← somaPonderada cpf 11
  let d2 := digitoVerificador s2
  let b9 ← byteAt cpf 9
  if d1 = (subByte b9 48 : Int) then
    let b10 ← byteAt cpf 10
    if d2 = (subByte b10 48 : Int) then
      return true
  return false

/-! ## `strings` -/

/-- Go `unicode.IsSpace`: the runes with the Unicode White_Space property. -/
def isSpace (c : Char) : Bool :=
  let n := c.toNat
  (decide (9 ≤ n) && decide (n ≤ 13)) || n == 0x20 || n == 0x85 || n == 0xA0 || n == 0x1680
    || (decide (0x2000 ≤ n) && decide (n ≤ 0x200A)) || n == 0x2028 || n == 0x2029
    || n == 0x202F || n == 0x205F || n == 0x3000

/-- The scan of `strings.FieldsFunc(s, unicode.IsSpace)`: `tok` is the field
being read, empty between fields; a space rune closes the field being read. -/
def fieldsLoop : Str → Str → List Str
  | [], tok => if tok = [] then [] else [tok]
  | c :: cs, tok =>
    if isSpace c then
      if tok = [] then fieldsLoop cs [] else tok :: fieldsLoop cs []
    else fieldsLoop cs (tok ++ [c])

/-- Go `strings.Fields(s)`: the maximal runs of non-space runes of `s`. -/
def Fields (s : Str) : List Str := fieldsLoop s []

/-- The scan of `strings.Split(s, "\t")`: `cur` is the piece being read; every
tab closes a piece, and the end of the string closes the last one. -/
def splitLoop : Str → Str → List Str
  | [], cur => [cur]
  | c :: cs, cur =>
    if c = Char.ofNat 9 then cur :: splitLoop cs [] else splitLoop cs (cur ++ [c])

/-- Go `strings.Split(s, "\t")`. -/
def SplitTab (s : Str) : List Str := splitLoop s []

/-- Go `strings.Join(xs, " ")`. -/
def JoinSpace : List Str → Str
  | [] => []
  | [x] => x
  | x :: y :: r => x ++ Char.ofNat 32 :: JoinSpace (y :: r)

/-! ## The data model -/

/-- The struct `DadosCliente` of `main.go`. -/
structure DadosCliente where
  CPF : Str
  Private : Str
  Incompleto : Str
  DataUltimaCompra : Str
  TicketMedio : Str
  TicketUltimaCompra : Str
  LojaMaisFrequentada : Str
  LojaUltimaCompra : Str
  deriving DecidableEq

/-- The eight fields of a record in declaration order. -/
def DadosCliente.campos (c : DadosCliente) : List Str :=
  [c.CPF, c.Private, c.Incompleto, c.DataUltimaCompra, c.TicketMedio,
    c.TicketUltimaCompra, c.LojaMaisFrequentada, c.LojaUltimaCompra]

/-- What `bufio.Scanner` makes of an opened file: the lines `Scan`/`Text` yield
in order, and the value of `scanner.Err()` once `Scan` has returned false. -/
structure Arquivo where
  linhas : List Str
  erroLeitura : Option Erro

/-- The file system seen through `os.Open`: an error or the opened file. -/
abbrev SistemaArquivos := Str → Except Erro Arquivo

/-- Go `bufio.MaxScanTokenSize`, the size limit of the buffer of a scanner made
by `bufio.NewScanner`. -/
def MaxScanTokenSize : Nat := 64 * 1024

/-- The helper `dropCR` of `bufio.ScanLines`: one trailing carriage return is
removed from the line. -/
def dropCR (linha : Str) : Str :=
  if linha.getLast? = some (Char.ofNat 13) then linha.dropLast else linha

/-- What is stored in a file: its lines, as the bytes between the newlines, and
the error with which the reader under the scanner ends, if any. -/
structure Conteudo where
  linhas : List Str
  erroLeitura : Option Erro

/-- The scanner of `bufio.NewScanner(file)` with `bufio.ScanLines` run over the
lines of a file: a line is yielded without its trailing carriage return; a line
of `MaxScanTokenSize` bytes or more does not fit in the buffer, so `Scan`
returns false there and `Err()` is `bufio.ErrTooLong`; after the last line
`Err()` is the error of the reader. -/
def escanear : List Str → Option Erro → Arquivo
  | [], erro => { linhas := [], erroLeitura := erro }
  | linha :: resto, erro =>
    if MaxScanTokenSize ≤ len linha then
      { linhas := [], erroLeitura := some Erro.tokenLongo }
    else
      { linhas := dropCR linha :: (escanear resto erro).linhas,
        erroLeitura := (escanear resto erro).erroLeitura }

/-- The file system in which every name opens a file with the given content. -/
def arquivoCom (c : Conteudo) : SistemaArquivos :=
  fun _ => Except.ok (escanear c.linhas c.erroLeitura)

/-- The PostgreSQL store as explicit state. `falhaOpen`, `falhaPrepare` and
`falhaExec` say when `sql.Open`, `db.Prepare` and `stmt.Exec` fail (`falhaExec`
sees the rows of the table and the record being inserted); `tabela` holds the
rows of `dados_cliente` in insertion order, `tentativas` logs every record
that `stmt.Exec` was called with, and `conexoes` counts the calls of `sql.Open`. -/
structure Banco where
  falhaOpen : Option Erro
  falhaPrepare : Option Erro
  falhaExec : List DadosCliente → DadosCliente → Option Erro
  tabela : List DadosCliente
  tentativas : List DadosCliente
  conexoes : Nat

/-! ## `gravarClientes` -/

/-- The loop `for _, cliente := range clientes { _, err := stmt.Exec(...); if err != nil
{ return fmt.Errorf(...) } }` followed by `return nil`. -/
def lacoExec (b : Banco) : List DadosCliente → Option Erro × Banco
  | [] => (none, b)
  | cliente :: resto =>
    match b.falhaExec b.tabela cliente with
    | some e => (some (Erro.inserir e), { b with tentativas := b.tentativas ++ [cliente] })
    | none =>
      lacoExec { b with tabela := b.tabela ++ [cliente],
                        tentativas := b.tentativas ++ [cliente] } resto

/-- The function `gravarClientes` of `main.go`: its error result and the store
it leaves. -/
def gravarClientes (clientes : List DadosCliente) (b : Banco) : Option Erro × Banco :=
  let b := { b with conexoes := b.conexoes + 1 }
  match b.falhaOpen with
  | some e => (some (Erro.conectar e), b)
  | none =>
    match b.falhaPrepare with
    | some e => (some (Erro.preparar e), b)
    | none => lacoExec b clientes

/-! ## `processarArquivo` -/

/-- The composite literal `DadosCliente{CPF: parts[0], ..., LojaUltimaCompra: parts[7]}`
of the loop body. -/
def montarDadosCliente (parts : List Str) : Option DadosCliente := do
  let p0 ← parts[0]?
  let p1 ← parts[1]?
  let p2 ← parts[2]?
  let p3 ← parts[3]?
  let p4 ← parts[4]?
  let p5 ← parts[5]?
  let p6 ← parts[6]?
  let p7 ← parts[7]?
  return { CPF := p0, Private := p1, Incompleto := p2, DataUltimaCompra := p3,
           TicketMedio := p4, TicketUltimaCompra := p5, LojaMaisFrequentada := p6,
           LojaUltimaCompra := p7 }

/-- The body of the loop `for scanner.Scan() { ... }` for one line: the value of
`dados` after the iteration. -/
def processarLinha (linha : Str) (dados : List DadosCliente) : Option (List DadosCliente) := do
  let campos := SplitTab linha
  let campo0 ← campos[0]?
  let parts := Fields campo0
  if parts.length ≥ 8 then
    let dadosCliente ← montarDadosCliente parts
    let p0 ← parts[0]?
    let cpfValido ← validarCPF p0
    if cpfValido then
      return dados ++ [dadosCliente]
    else
      return dados
  else
    return dados

/-- The loop `for scanner.Scan() { ... }` over the lines the scanner still has. -/
def lacoScan : List Str → List DadosCliente → Option (List DadosCliente)
  | [], dados => some dados
  | linha :: resto, dados => do
    let dados ← processarLinha linha dados
    lacoScan resto dados

/-- The function `processarArquivo` of `main.go`: the returned slice, the
returned error and the store it leaves; `none` is a panic. -/
def processarArquivo (fs : SistemaArquivos) (nomeArquivo : Str) (b : Banco) :
    Option (List DadosCliente × Option Erro × Banco) :=
  match fs nomeArquivo with
  | Except.error err => some ([], some err, b)
  | Except.ok file => do
    -- scanner.Scan(): the first line is read and never looked at
    let aposCabecalho := file.linhas.drop 1
    let dados ← lacoScan aposCabecalho []
    match file.erroLeitura with
    | some err => return ([], some err, b)
    | none =>
      -- gravarClientes(dados): the error result is discarded
      let b1 := (gravarClientes dados b).2
      return (dados, none, b1)

/-! ## The specification's vocabulary -/

/-- A decimal digit character. -/
def ehDigito (c : Char) : Bool := decide ('0' ≤ c ∧ c ≤ '9')

/-- The string obtained by deleting every non-decimal-digit character. -/
def digitos (s : Str) : Str := s.filter ehDigito

/-- The value of a decimal digit character. -/
def valorDigito (c : Char) : Nat := c.toNat - '0'.toNat

/-- The digit `D[i]` as a number (0 outside the string). -/
def digitoEm (D : Str) (i : Nat) : Nat := valorDigito (D.getD i '0')

/-- The weighted sum `sum over i in 0..8 of D[i] * (peso - i)`. -/
def somaSpec (D : Str) (peso : Nat) : Nat :=
  ((List.range 9).map (fun i => digitoEm D i * (peso - i))).sum

/-- The check digit `11 - (soma mod 11)`, replaced by 0 when greater than 9. -/
def dvSpec (soma : Nat) : Nat := if 11 - soma % 11 > 9 then 0 else 11 - soma % 11

/-- The acceptance condition of the validator as the specification words it. -/
def cpfAceito (s : Str) : Prop :=
  (digitos s).length = 11
    ∧ (¬ ∃ d ∈ digitos s, digitos s = List.replicate 11 d)
    ∧ digitoEm (digitos s) 9 = dvSpec (somaSpec (digitos s) 10)
    ∧ digitoEm (digitos s) 10 = dvSpec (somaSpec (digitos s) 11)

instance cpfAceitoDecidable (s : Str) : Decidable (cpfAceito s) := by
  unfold cpfAceito; infer_instance

/-- The first tab-delimited field of a line: everything before the first tab. -/
def primeiroCampo (linha : Str) : Str := linha.takeWhile (fun c => c != Char.ofNat 9)

/-- The tokens of a line: its first tab-delimited field split on whitespace runs. -/
def tokens (linha : Str) : List Str := Fields (primeiroCampo linha)

/-- The record made of eight tokens, positionally. -/
def registroDe : List Str → Option DadosCliente
  | [t0, t1, t2, t3, t4, t5, t6, t7] =>
    some { CPF := t0, Private := t1, Incompleto := t2, DataUltimaCompra := t3,
           TicketMedio := t4, TicketUltimaCompra := t5, LojaMaisFrequentada := t6,
           LojaUltimaCompra := t7 }
  | _ => none

/-- The record a line contributes to the batch: the one made of its first eight
tokens when it has eight and the first of them passes `validarCPF`. -/
def registroAceito (linha : Str) : Option DadosCliente :=
  (registroDe ((tokens linha).take 8)).filter (fun r => validarCPF r.CPF = some true)

/-- The batch of a file: the accepted records of the lines after the first one,
in line order. -/
def loteDe (linhas : List Str) : List DadosCliente := (linhas.drop 1).filterMap registroAceito

/-! ## Sample inputs -/

/-- A header line. -/
def linhaCabecalho : Str :=
  "CPF PRIVATE INCOMPLETO ULTIMA MEDIO TICKET LOJA1 LOJA2".toList

/-- A line whose identifier the validator accepts. -/
def linhaA : Str := "111.444.777-30 0 0 2013-05-27 231,12 231,12 L1 L2".toList

/-- A second accepted line, with a ninth token and a second tab field. -/
def linhaB : Str := "12345678909 1 0 NULL 9,50 9,50 L3 L4 extra\tresto".toList

/-- A third accepted line. -/
def linhaC : Str := "529.982.247-29 0 1 2012-01-09 1,00 2,00 L5 L6".toList

/-- A line whose identifier the validator rejects. -/
def linhaInvalida : Str := "111.444.777-35 0 0 2013-05-27 231,12 231,12 L1 L2".toList

/-- A line with seven tokens. -/
def linhaCurta : Str := "111.444.777-30 0 0 2013-05-27 231,12 231,12 L1".toList

/-- A line of one token of 65536 bytes. -/
def linhaLonga : Str := List.replicate 65536 'x'

/-- The record of `linhaA`. -/
def registroA : DadosCliente :=
  { CPF := "111.444.777-30".toList, Private := "0".toList, Incompleto := "0".toList,
    DataUltimaCompra := "2013-05-27".toList, TicketMedio := "231,12".toList,
    TicketUltimaCompra := "231,12".toList, LojaMaisFrequentada := "L1".toList,
    LojaUltimaCompra := "L2".toList }

/-- The record of `linhaB`. -/
def registroB : DadosCliente :=
  { CPF := "12345678909".toList, Private := "1".toList, Incompleto := "0".toList,
    DataUltimaCompra := "NULL".toList, TicketMedio := "9,50".toList,
    TicketUltimaCompra := "9,50".toList, LojaMaisFrequentada := "L3".toList,
    LojaUltimaCompra := "L4".toList }

/-- The record of `linhaC`. -/
def registroC : DadosCliente :=
  { CPF := "529.982.247-29".toList, Private := "0".toList, Incompleto := "1".toList,
    DataUltimaCompra := "2012-01-09".toList, TicketMedio := "1,00".toList,
    TicketUltimaCompra := "2,00".toList, LojaMaisFrequentada := "L5".toList,
    LojaUltimaCompra := "L6".toList }

/-- A file system holding one readable file under every name. -/
def umArquivo (linhas : List Str) (erro : Option Erro) : SistemaArquivos :=
  fun _ => Except.ok { linhas := linhas, erroLeitura := erro }

/-- A file system in which no file can be opened. -/
def semArquivo (e : Erro) : SistemaArquivos := fun _ => Except.error e

/-- An empty store that accepts every insert. -/
def bancoVazio : Banco :=
  { falhaOpen := none, falhaPrepare := none, falhaExec := fun _ _ => none,
    tabela := [], tentativas := [], conexoes := 0 }

/-- An empty store whose second insert fails. -/
def bancoFalhaNoSegundo : Banco :=
  { falhaOpen := none, falhaPrepare := none,
    falhaExec := fun tabela _ => if tabela.length = 1 then some (Erro.sistema 23505) else none,
    tabela := [], tentativas := [], conexoes := 0 }

/-! ## Check digits as functions of the first nine digits -/

/-- The decimal digit character of a value below ten. -/
def charDigito (n : Nat) : Char := Char.ofNat ('0'.toNat + n)

/-- The 11-digit string made of nine digits and the two check digits computed
from them. -/
def candidato (P : Str) : Str :=
  P ++ [charDigito (dvSpec (somaSpec P 10)), charDigito (dvSpec (somaSpec P 11))]

/-- Two weighted sums give the same check digit: their residues modulo 11 are
equal, or they are 0 and 1 in some order, which can only be when the digit is 0. -/
def mesmoDigito (x y : Nat) (zero : Bool) : Bool :=
  x % 11 == y % 11 || (zero && ((x + 1) % 11 == y % 11 || x % 11 == (y + 1) % 11))

/-- The replacements of a digit `a` of weight `w` (in the first sum) by `b` that
both check digits can miss; `z9` and `z10` say that the check digits are 0. -/
def trocaInvisivel (w a b : Nat) (z9 z10 : Bool) : Bool :=
  (w == 10 && z9 && (b == a + 1 || a == b + 1))
    || (w == 5 && z9 && z10 && (b == a + 2 || a == b + 2 || b == a + 9 || a == b + 9))

/-! ## Lemmas on the validator -/

theorem naoDigito_eq_false_iff (c : Char) : naoDigito c = false ↔ 48 ≤ c.toNat ∧ c.toNat ≤ 57 := by
  simp [naoDigito]

theorem utf8_of_digit {c : Char} (h : naoDigito c = false) : utf8 c = [c.toNat] := by
  rw [naoDigito_eq_false_iff] at h
  have : c.toNat < 128 := by omega
  simp [utf8, this]

theorem bytes_of_digits : ∀ {s : Str}, (∀ c ∈ s, naoDigito c = false) → bytes s = s.map Char.toNat
  | [], _ => rfl
  | c :: cs, h => by
    have hc := utf8_of_digit (h c (List.mem_cons_self _ _))
    have ih := bytes_of_digits (s := cs) (fun x hx => h x (List.mem_cons_of_mem _ hx))
    simp [bytes, hc, ih]

theorem removeNaoDigitos_digits (s : Str) : ∀ c ∈ removeNaoDigitos s, naoDigito c = false := by
  intro c hc
  simp [removeNaoDigitos] at hc
  exact hc.2

theorem Atoi_digit {b : Nat} (h1 : 48 ≤ b) (h2 : b ≤ 57) :
    Atoi (stringOfByte b) = (((b - 48 : Nat) : Int), none) := by
  interval_cases b <;> rfl

theorem ehDigito_eq (c : Char) : ehDigito c = !naoDigito c := by
  have h1 : ('0' ≤ c) ↔ 48 ≤ c.toNat := by rw [Char.le_def]; rfl
  have h2 : (c ≤ '9') ↔ c.toNat ≤ 57 := by rw [Char.le_def]; rfl
  simp [ehDigito, naoDigito, h1, h2]

theorem digitos_eq (s : Str) : digitos s = removeNaoDigitos s := by
  unfold digitos removeNaoDigitos
  congr 1
  funext c
  exact ehDigito_eq c

theorem byteAt_of_digits {D : Str} (hD : ∀ c ∈ D, naoDigito c = false) {i : Nat}
    (hi : i < D.length) : byteAt D i = some (digitoEm D i + 48) := by
  have hc : naoDigito (D[i]) = false := hD _ (List.getElem_mem _)
  rw [naoDigito_eq_false_iff] at hc
  simp only [byteAt, bytes_of_digits hD, digitoEm, valorDigito]
  rw [List.getElem?_eq_getElem (by simpa using hi)]
  simp only [List.getElem_map, List.getD_eq_getElem?_getD, List.getElem?_eq_getElem hi,
    Option.getD_some, Option.some.injEq]
  have : '0'.toNat = 48 := rfl
  omega

theorem digitoEm_le {D : Str} (hD : ∀ c ∈ D, naoDigito c = false) (i : Nat) : digitoEm D i ≤ 9 := by
  unfold digitoEm valorDigito
  have h0 : '0'.toNat = 48 := rfl
  by_cases hi : i < D.length
  · have hc : naoDigito (D[i]) = false := hD _ (List.getElem_mem _)
    rw [naoDigito_eq_false_iff] at hc
    simp only [List.getD_eq_getElem?_getD, List.getElem?_eq_getElem hi, Option.getD_some]
    omega
  · simp only [List.getD_eq_getElem?_getD, List.getElem?_eq_none (Nat.le_of_not_lt hi),
      Option.getD_none]
    omega

theorem somaLoop_of_digits {D : Str} (hD : ∀ c ∈ D, naoDigito c = false) (peso : Nat) :
    ∀ n, n ≤ D.length → n ≤ peso →
      (List.range n).foldlM
        (fun (d : Int) i => do
          let b ← byteAt D i
          let num := (Atoi (stringOfByte b)).1
          pure (d + num * ((peso : Int) - (i : Int))))
        (0 : Int)
      = some ((((List.range n).map (fun i => digitoEm D i * (peso - i))).sum : Nat) : Int)
  | 0, _, _ => rfl
  | n + 1, hn, hp => by
    have ih := somaLoop_of_digits hD peso n (by omega) (by omega)
    rw [List.range_succ, List.foldlM_append, ih]
    have hb := byteAt_of_digits hD (i := n) (by omega)
    have hle := digitoEm_le hD n
    have ha : (Atoi (stringOfByte (digitoEm D n + 48))).1 = ((digitoEm D n : Nat) : Int) := by
      rw [Atoi_digit (b := digitoEm D n + 48) (by omega) (by omega)]
      simp
    simp only [Option.some_bind, List.foldlM_cons, List.foldlM_nil, hb, ha, List.map_append,
      List.sum_append, List.map_cons, List.map_nil, List.sum_cons, List.sum_nil]
    simp only [Option.bind_eq_bind, Option.some_bind, Option.pure_def, Option.bind_some]
    congr 1
    push_cast
    rw [Nat.cast_sub (by omega)]
    simp [ha]

theorem somaPonderada_of_digits {D : Str} (hD : ∀ c ∈ D, naoDigito c = false)
    (hlen : 9 ≤ D.length) (peso : Nat) (hp : 9 ≤ peso) :
    somaPonderada D (peso : Int) = some ((somaSpec D peso : Nat) : Int) :=
  somaLoop_of_digits hD peso 9 hlen hp

theorem digitoVerificador_cast (n : Nat) : digitoVerificador (n : Int) = ((dvSpec n : Nat) : Int) := by
  unfold digitoVerificador dvSpec
  rw [Int.tmod_eq_emod (by omega) (by omega)]
  simp only
  split_ifs <;> omega

theorem sequenciaDeIguais_iff {D : Str} (hD : ∀ c ∈ D, naoDigito c = false) :
    sequenciaDeIguais D = true ↔ ∃ d ∈ D, D = List.replicate 11 d := by
  unfold sequenciaDeIguais
  rw [decide_eq_true_iff]
  constructor
  · intro h
    rcases h with h | h | h | h | h | h | h | h | h | h <;> subst h
    · exact ⟨'0', by decide, rfl⟩
    · exact ⟨'1', by decide, rfl⟩
    · exact ⟨'2', by decide, rfl⟩
    · exact ⟨'3', by decide, rfl⟩
    · exact ⟨'4', by decide, rfl⟩
    · exact ⟨'5', by decide, rfl⟩
    · exact ⟨'6', by decide, rfl⟩
    · exact ⟨'7', by decide, rfl⟩
    · exact ⟨'8', by decide, rfl⟩
    · exact ⟨'9', by decide, rfl⟩
  · rintro ⟨d, hd, heq⟩
    have hdig := (naoDigito_eq_false_iff d).1 (hD d hd)
    have hof : d = Char.ofNat d.toNat := (Char.ofNat_toNat d).symm
    generalize d.toNat = n at hdig hof
    obtain ⟨h1, h2⟩ := hdig
    rw [heq, hof]
    interval_cases n <;> decide

theorem validarCPF_unfold (s : Str) : validarCPF s =
    if len (removeNaoDigitos s) ≠ 11 then some false
    else if sequenciaDeIguais (removeNaoDigitos s) = true then some false
    else
      (somaPonderada (removeNaoDigitos s) 10).bind fun s1 =>
      (somaPonderada (removeNaoDigitos s) 11).bind fun s2 =>
      (byteAt (removeNaoDigitos s) 9).bind fun b9 =>
        if digitoVerificador s1 = (subByte b9 48 : Int) then
          (byteAt (removeNaoDigitos s) 10).bind fun b10 =>
            if digitoVerificador s2 = (subByte b10 48 : Int) then some true else some false
        else some false := by
  unfold validarCPF
  simp only [Option.bind_eq_bind, Option.pure_def, Option.some_bind]

theorem validarCPF_eq (s : Str) : validarCPF s = some (decide (cpfAceito s)) := by
  have hD := removeNaoDigitos_digits s
  rw [validarCPF_unfold]
  unfold cpfAceito
  simp only [digitos_eq]
  generalize removeNaoDigitos s = D at hD
  have hlen : len D = D.length := by
    simp [len, bytes_of_digits hD]
  rw [hlen]
  by_cases h11 : D.length = 11
  · rw [if_neg (by simpa using h11)]
    by_cases hrep : ∃ d ∈ D, D = List.replicate 11 d
    · rw [if_pos ((sequenciaDeIguais_iff hD).2 hrep), decide_eq_false (fun h => h.2.1 hrep)]
    · rw [if_neg (fun h => hrep ((sequenciaDeIguais_iff hD).1 h))]
      have e1 : somaPonderada D 10 = some ((somaSpec D 10 : Nat) : Int) :=
        somaPonderada_of_digits hD (by omega) 10 (by omega)
      have e2 : somaPonderada D 11 = some ((somaSpec D 11 : Nat) : Int) :=
        somaPonderada_of_digits hD (by omega) 11 (by omega)
      have b9 := byteAt_of_digits hD (i := 9) (by omega)
      have b10 := byteAt_of_digits hD (i := 10) (by omega)
      have l9 := digitoEm_le hD 9
      have l10 := digitoEm_le hD 10
      have s9 : subByte (digitoEm D 9 + 48) 48 = digitoEm D 9 := by
        unfold subByte; omega
      have s10 : subByte (digitoEm D 10 + 48) 48 = digitoEm D 10 := by
        unfold subByte; omega
      rw [e1, e2, b9, b10]
      simp only [Option.some_bind, s9, s10, digitoVerificador_cast, Nat.cast_inj]
      by_cases c1 : dvSpec (somaSpec D 10) = digitoEm D 9
      · by_cases c2 : dvSpec (somaSpec D 11) = digitoEm D 10
        · rw [if_pos c1, if_pos c2, decide_eq_true ⟨h11, hrep, c1.symm, c2.symm⟩]
        · rw [if_pos c1, if_neg c2, decide_eq_false (fun h => c2 h.2.2.2.symm)]
      · rw [if_neg c1, decide_eq_false (fun h => c1 h.2.2.1.symm)]
  · rw [if_pos (by simpa using h11), decide_eq_false (fun h => h11 h.1)]

/-! ## Lemmas on the pipeline -/

theorem splitLoop_head (s cur : Str) :
    (splitLoop s cur)[0]? = some (cur ++ primeiroCampo s) := by
  induction s generalizing cur with
  | nil => simp [splitLoop, primeiroCampo]
  | cons c cs ih =>
    by_cases hc : c = Char.ofNat 9
    · simp [splitLoop, primeiroCampo, hc]
    · have := ih (cur ++ [c])
      simp only [primeiroCampo] at this
      simp [splitLoop, primeiroCampo, hc, this]

theorem SplitTab_head (s : Str) : (SplitTab s)[0]? = some (primeiroCampo s) := by
  simpa [SplitTab] using splitLoop_head s []

theorem montarDadosCliente_of_length {parts : List Str} (h : 8 ≤ parts.length) :
    ∃ r, montarDadosCliente parts = some r ∧ registroDe (parts.take 8) = some r
      ∧ r.campos = parts.take 8 := by
  match parts, h with
  | t0 :: t1 :: t2 :: t3 :: t4 :: t5 :: t6 :: t7 :: resto, _ =>
    exact ⟨{ CPF := t0, Private := t1, Incompleto := t2, DataUltimaCompra := t3,
             TicketMedio := t4, TicketUltimaCompra := t5, LojaMaisFrequentada := t6,
             LojaUltimaCompra := t7 }, by simp [montarDadosCliente], rfl, rfl⟩

theorem registroDe_eq_none {ts : List Str} (h : ts.length < 8) : registroDe (ts.take 8) = none := by
  match ts, h with
  | [], _ => rfl
  | [_], _ => rfl
  | [_, _], _ => rfl
  | [_, _, _], _ => rfl
  | [_, _, _, _], _ => rfl
  | [_, _, _, _, _], _ => rfl
  | [_, _, _, _, _, _], _ => rfl
  | [_, _, _, _, _, _, _], _ => rfl
  | _ :: _ :: _ :: _ :: _ :: _ :: _ :: _ :: _, h => simp at h; omega

theorem processarLinha_eq (linha : Str) (dados : List DadosCliente) :
    processarLinha linha dados = some (dados ++ (registroAceito linha).toList) := by
  unfold processarLinha registroAceito tokens
  simp only [SplitTab_head, Option.bind_eq_bind, Option.some_bind, Option.pure_def]
  generalize Fields (primeiroCampo linha) = parts
  by_cases h8 : 8 ≤ parts.length
  · obtain ⟨r, hr, hreg, hcampos⟩ := montarDadosCliente_of_length h8
    have h0 : parts[0]? = some r.CPF := by
      match parts, h8 with
      | t0 :: t1 :: t2 :: t3 :: t4 :: t5 :: t6 :: t7 :: resto, _ =>
        simp [montarDadosCliente] at hr
        subst hr
        rfl
    rw [if_pos (by simpa using h8), hr, hreg, h0]
    simp only [Option.some_bind, validarCPF_eq]
    by_cases hv : cpfAceito r.CPF
    · simp [hv, Option.filter]
    · simp [hv, Option.filter]
  · rw [if_neg (by simpa using h8), registroDe_eq_none (by omega)]
    simp [Option.filter]

theorem lacoScan_eq (linhas : List Str) (dados : List DadosCliente) :
    lacoScan linhas dados = some (dados ++ linhas.filterMap registroAceito) := by
  induction linhas generalizing dados with
  | nil => simp [lacoScan]
  | cons l ls ih =>
    simp only [lacoScan, processarLinha_eq, Option.bind_eq_bind, Option.some_bind, ih]
    cases h : registroAceito l <;> simp [List.filterMap_cons, h]

theorem processarArquivo_ok (fs : SistemaArquivos) (nome : Str) (b : Banco) (arq : Arquivo)
    (h : fs nome = Except.ok arq) :
    processarArquivo fs nome b =
      match arq.erroLeitura with
      | some err => some ([], some err, b)
      | none => some (loteDe arq.linhas, none, (gravarClientes (loteDe arq.linhas) b).2) := by
  unfold processarArquivo
  rw [h]
  simp only [lacoScan_eq, Option.bind_eq_bind, Option.some_bind, List.nil_append, loteDe]
  cases arq.erroLeitura <;> rfl

/-! ## Lemmas on `strings.Fields` and on the insert loop -/

theorem fieldsLoop_limpo (s : Str) : ∀ tok : Str, (∀ c ∈ tok, isSpace c = false) →
    ∀ t ∈ fieldsLoop s tok, t ≠ [] ∧ ∀ c ∈ t, isSpace c = false := by
  induction s with
  | nil =>
    intro tok htok t ht
    by_cases h : tok = []
    · simp [fieldsLoop, h] at ht
    · simp only [fieldsLoop, if_neg h, List.mem_singleton] at ht
      subst ht
      exact ⟨h, htok⟩
  | cons c cs ih =>
    intro tok htok t ht
    by_cases hc : isSpace c = true
    · by_cases h : tok = []
      · simp only [fieldsLoop, hc, if_true, h] at ht
        exact ih [] (by simp) t ht
      · simp only [fieldsLoop, hc, if_true, if_neg h, List.mem_cons] at ht
        rcases ht with ht | ht
        · subst ht
          exact ⟨h, htok⟩
        · exact ih [] (by simp) t ht
    · simp only [fieldsLoop, hc] at ht
      refine ih (tok ++ [c]) ?_ t ht
      intro x hx
      rcases List.mem_append.1 hx with hx | hx
      · exact htok x hx
      · simp only [List.mem_singleton] at hx
        subst hx
        simpa using hc

theorem Fields_limpo (s : Str) : ∀ t ∈ Fields s, t ≠ [] ∧ ∀ c ∈ t, isSpace c = false :=
  fieldsLoop_limpo s [] (by simp)

theorem fieldsLoop_append (t : Str) (ht : ∀ c ∈ t, isSpace c = false) (resto tok : Str) :
    fieldsLoop (t ++ resto) tok = fieldsLoop resto (tok ++ t) := by
  induction t generalizing tok with
  | nil => simp
  | cons c cs ih =>
    have hc : isSpace c = false := ht c (List.mem_cons_self _ _)
    have := ih (fun x hx => ht x (List.mem_cons_of_mem _ hx)) (tok ++ [c])
    simp only [List.cons_append, fieldsLoop, hc, this]
    simp
    rw [this]
    simp

theorem Fields_JoinSpace : ∀ ts : List Str, (∀ t ∈ ts, t ≠ [] ∧ ∀ c ∈ t, isSpace c = false) →
    Fields (JoinSpace ts) = ts
  | [], _ => by simp [Fields, JoinSpace, fieldsLoop]
  | [x], h => by
    have hx := h x (List.mem_singleton.2 rfl)
    have := fieldsLoop_append x hx.2 [] []
    simp only [List.append_nil, List.nil_append] at this
    simp [Fields, JoinSpace, this, fieldsLoop, hx.1]
  | x :: y :: r, h => by
    have hx := h x (List.mem_cons_self _ _)
    have ih := Fields_JoinSpace (y :: r) (fun t ht => h t (List.mem_cons_of_mem _ ht))
    have := fieldsLoop_append x hx.2 (Char.ofNat 32 :: JoinSpace (y :: r)) []
    simp only [List.nil_append] at this
    have hsp : isSpace (Char.ofNat 32) = true := by decide
    simp only [Fields] at ih
    simp only [Fields, JoinSpace, this, fieldsLoop, hsp, if_true, if_neg hx.1, ih]

theorem lacoExec_sucesso : ∀ (cs : List DadosCliente) (b : Banco),
    (∀ i c, cs[i]? = some c → b.falhaExec (b.tabela ++ cs.take i) c = none) →
    lacoExec b cs = (none, { b with tabela := b.tabela ++ cs, tentativas := b.tentativas ++ cs })
  | [], b, _ => by simp [lacoExec]
  | c :: cs, b, h => by
    have h0 : b.falhaExec b.tabela c = none := by simpa using h 0 c (by simp)
    have ih := lacoExec_sucesso cs
      { b with tabela := b.tabela ++ [c], tentativas := b.tentativas ++ [c] }
      (fun i x hx => by simpa using h (i + 1) x (by simpa using hx))
    simp only [lacoExec, h0, ih]
    simp

theorem lacoExec_falha : ∀ (cs : List DadosCliente) (b : Banco) (k : Nat) (c : DadosCliente)
    (e : Erro), cs[k]? = some c →
    (∀ i x, i < k → cs[i]? = some x → b.falhaExec (b.tabela ++ cs.take i) x = none) →
    b.falhaExec (b.tabela ++ cs.take k) c = some e →
    lacoExec b cs = (some (Erro.inserir e),
      { b with tabela := b.tabela ++ cs.take k, tentativas := b.tentativas ++ cs.take (k + 1) })
  | [], _, _, _, _, hk, _, _ => by simp at hk
  | a :: cs, b, 0, c, e, hk, _, hf => by
    simp at hk
    subst hk
    simp at hf
    simp [lacoExec, hf]
  | a :: cs, b, k + 1, c, e, hk, hs, hf => by
    have h0 : b.falhaExec b.tabela a = none := by simpa using hs 0 a (by omega) (by simp)
    have ih := lacoExec_falha cs
      { b with tabela := b.tabela ++ [a], tentativas := b.tentativas ++ [a] } k c e
      (by simpa using hk)
      (fun i x hi hx => by simpa using hs (i + 1) x (by omega) (by simpa using hx))
      (by simpa using hf)
    simp only [lacoExec, h0, ih]
    simp

/-! ## The validator -/

/-- C1: `validarCPF s` returns true exactly when the string `D` of the decimal
digits of `s` has 11 digits, is not eleven copies of one digit, and has
`D[9] = d1` and `D[10] = d2` for the two check digits computed from `D[0..8]`
with weights `10 - i` and `11 - i`; it returns false in every other case. -/
theorem validarCPF_iff_spec (s : Str) :
    (validarCPF s = some true ↔
      ((digitos s).length = 11
        ∧ (¬ ∃ d, digitos s = List.replicate 11 d)
        ∧ digitoEm (digitos s) 9 = dvSpec (somaSpec (digitos s) 10)
        ∧ digitoEm (digitos s) 10 = dvSpec (somaSpec (digitos s) 11)))
    ∧ (validarCPF s = some true ∨ validarCPF s = some false) := by
  have hex : (∃ d, digitos s = List.replicate 11 d) ↔
      ∃ d ∈ digitos s, digitos s = List.replicate 11 d := by
    constructor
    · rintro ⟨d, hd⟩
      exact ⟨d, by rw [hd]; simp, hd⟩
    · rintro ⟨d, _, hd⟩
      exact ⟨d, hd⟩
  rw [validarCPF_eq, hex]
  constructor
  · simp [cpfAceito]
  · by_cases h : cpfAceito s <;> simp [h]

/-- C3 (as the code behaves): `validarCPF("11144477735")` returns false, because
the second loop adds only nine weighted digits and never the first check digit. -/
theorem validarCPF_rejeita_11144477735 :
    validarCPF "11144477735".toList = some false
      ∧ somaPonderada "11144477735".toList 11 = some 198
      ∧ digitoVerificador 198 = 0
      ∧ digitoVerificador (198 + 3 * 2) = 5 := by
  decide

/-- C7: a string whose decimal digits, read in order, are eleven copies of one
digit `d` is rejected, whatever other characters stand between them. -/
theorem validarCPF_rejeita_iguais (d : Char) (s : Str)
    (hs : digitos s = List.replicate 11 d) : validarCPF s = some false := by
  rw [validarCPF_eq, decide_eq_false]
  intro h
  exact h.2.1 ⟨d, by rw [hs]; simp, hs⟩

/-- Witness of C7 at `"111.111.111-11"`. -/
theorem validarCPF_rejeita_iguais_witness :
    validarCPF "111.111.111-11".toList = some false :=
  validarCPF_rejeita_iguais '1' "111.111.111-11".toList (by decide)

/-! ## The pipeline and the store -/

/-- C2: when the file opens and its lines are read without error, the slice
returned by `processarArquivo` is, in line order, the list of the records of the
lines after the first one whose first tab-delimited field has at least 8
whitespace-separated tokens and whose first token passes `validarCPF`, each
record being the first 8 tokens in order; and any other file whose lines after
the first have the same first 8 tokens in their first tab field gives the same
slice. -/
theorem processarArquivo_lote (fs : SistemaArquivos) (nome : Str) (b : Banco) (arq : Arquivo)
    (hopen : fs nome = Except.ok arq) (hlido : arq.erroLeitura = none) :
    (∃ b1, processarArquivo fs nome b =
      some ((arq.linhas.drop 1).filterMap (fun linha =>
              (registroDe ((Fields (primeiroCampo linha)).take 8)).filter
                (fun r => validarCPF r.CPF = some true)),
            none, b1))
    ∧ ∀ (fs2 : SistemaArquivos) (arq2 : Arquivo) (b2 : Banco),
        fs2 nome = Except.ok arq2 → arq2.erroLeitura = none →
        (arq2.linhas.drop 1).map (fun linha => (Fields (primeiroCampo linha)).take 8)
          = (arq.linhas.drop 1).map (fun linha => (Fields (primeiroCampo linha)).take 8) →
        (processarArquivo fs2 nome b2).map (fun r => r.1)
          = (processarArquivo fs nome b).map (fun r => r.1) := by
  constructor
  · rw [processarArquivo_ok fs nome b arq hopen, hlido]
    exact ⟨_, rfl⟩
  · intro fs2 arq2 b2 hopen2 hlido2 hkeys
    rw [processarArquivo_ok fs nome b arq hopen, hlido,
      processarArquivo_ok fs2 nome b2 arq2 hopen2, hlido2]
    have hcomp : ∀ ls : List Str, ls.filterMap registroAceito
        = (ls.map (fun linha => (Fields (primeiroCampo linha)).take 8)).filterMap
            (fun ts => (registroDe ts).filter (fun r => validarCPF r.CPF = some true)) := by
      intro ls
      rw [List.filterMap_map]
      rfl
    simp only [Option.map_some', loteDe, hcomp, hkeys]

/-- Witness of C2: a header, an accepted line, a rejected line, a short line and
an accepted line with a ninth token and a second tab field. -/
theorem processarArquivo_lote_witness :
    ∃ b1, processarArquivo
        (umArquivo [linhaCabecalho, linhaA, linhaInvalida, linhaCurta, linhaB] none)
        "uploaded_file.txt".toList bancoVazio = some ([registroA, registroB], none, b1) :=
  (processarArquivo_lote
    (umArquivo [linhaCabecalho, linhaA, linhaInvalida, linhaCurta, linhaB] none)
    "uploaded_file.txt".toList bancoVazio
    { linhas := [linhaCabecalho, linhaA, linhaInvalida, linhaCurta, linhaB], erroLeitura := none }
    rfl rfl).1

/-- C4 (as the code behaves): with a header and three accepted lines and a store
whose second insert fails, `gravarClientes` returns an error for the batch, yet
`processarArquivo` returns the three records with a nil error; one record is in
the table. -/
theorem processarArquivo_engole_falha :
    (gravarClientes [registroA, registroB, registroC] bancoFalhaNoSegundo).1
        = some (Erro.inserir (Erro.sistema 23505))
      ∧ (processarArquivo (umArquivo [linhaCabecalho, linhaA, linhaB, linhaC] none)
          "uploaded_file.txt".toList bancoFalhaNoSegundo).map
            (fun r => (r.1, r.2.1, r.2.2.tabela, r.2.2.tentativas))
        = some ([registroA, registroB, registroC], none, [registroA], [registroA, registroB]) := by
  constructor
  · decide
  · rw [processarArquivo_ok _ _ _ (Arquivo.mk [linhaCabecalho, linhaA, linhaB, linhaC] none) rfl]
    decide

/-- C5: with `sql.Open` and `db.Prepare` succeeding, `gravarClientes` inserts
the records one at a time in batch order. If the insert of the record at index
`k` is the first to fail, the wrapped error is returned, the table holds the
records of indices below `k` after its former rows, and `stmt.Exec` was called
for the records of indices up to `k` and for no other; if no insert fails, nil
is returned and the table holds the whole batch, once, after its former rows. -/
theorem gravarClientes_sequencial (clientes : List DadosCliente) (b : Banco)
    (hopen : b.falhaOpen = none) (hprep : b.falhaPrepare = none) :
    (∀ (k : Nat) (c : DadosCliente) (e : Erro), clientes[k]? = some c →
        (∀ i x, i < k → clientes[i]? = some x →
          b.falhaExec (b.tabela ++ clientes.take i) x = none) →
        b.falhaExec (b.tabela ++ clientes.take k) c = some e →
        gravarClientes clientes b = (some (Erro.inserir e),
          { b with tabela := b.tabela ++ clientes.take k,
                   tentativas := b.tentativas ++ clientes.take (k + 1),
                   conexoes := b.conexoes + 1 }))
    ∧ ((∀ i x, clientes[i]? = some x →
          b.falhaExec (b.tabela ++ clientes.take i) x = none) →
        gravarClientes clientes b = (none,
          { b with tabela := b.tabela ++ clientes,
                   tentativas := b.tentativas ++ clientes,
                   conexoes := b.conexoes + 1 })) := by
  constructor
  · intro k c e hk hs hf
    have h := lacoExec_falha clientes { b with conexoes := b.conexoes + 1 } k c e hk hs hf
    simpa [gravarClientes, hopen, hprep] using h
  · intro hs
    have h := lacoExec_sucesso clientes { b with conexoes := b.conexoes + 1 } hs
    simpa [gravarClientes, hopen, hprep] using h

/-- Witness of C5: the second of three inserts fails. -/
theorem gravarClientes_sequencial_witness :
    gravarClientes [registroA, registroB, registroC] bancoFalhaNoSegundo
      = (some (Erro.inserir (Erro.sistema 23505)),
          { bancoFalhaNoSegundo with tabela := [registroA],
                                     tentativas := [registroA, registroB],
                                     conexoes := 1 }) :=
  (gravarClientes_sequencial [registroA, registroB, registroC] bancoFalhaNoSegundo rfl rfl).1
    1 registroB (Erro.sistema 23505) rfl
    (fun i x hi hx => by
      have h0 : i = 0 := by omega
      subst h0
      rfl)
    rfl

/-- C6: when the file cannot be opened, or the scanner reports an error once
its lines are exhausted, `processarArquivo` returns the nil slice and that
error, and leaves the store as it was: no connection was opened and no insert
was attempted. -/
theorem processarArquivo_falha_leitura (fs : SistemaArquivos) (nome : Str) (b : Banco)
    (e : Erro)
    (h : fs nome = Except.error e
      ∨ ∃ arq, fs nome = Except.ok arq ∧ arq.erroLeitura = some e) :
    processarArquivo fs nome b = some ([], some e, b) := by
  rcases h with h | ⟨arq, hopen, herr⟩
  · simp [processarArquivo, h]
  · rw [processarArquivo_ok fs nome b arq hopen, herr]

/-- Witness of C6: the scanner fails after two accepted lines were read. -/
theorem processarArquivo_falha_leitura_witness :
    processarArquivo (umArquivo [linhaCabecalho, linhaA, linhaB] (some (Erro.sistema 5)))
      "uploaded_file.txt".toList bancoVazio = some ([], some (Erro.sistema 5), bancoVazio) :=
  processarArquivo_falha_leitura
    (umArquivo [linhaCabecalho, linhaA, linhaB] (some (Erro.sistema 5)))
    "uploaded_file.txt".toList bancoVazio (Erro.sistema 5)
    (Or.inr ⟨Arquivo.mk [linhaCabecalho, linhaA, linhaB] (some (Erro.sistema 5)), rfl, rfl⟩)

theorem loteDe_valido (linhas : List Str) : ∀ r ∈ loteDe linhas, validarCPF r.CPF = some true := by
  intro r hr
  simp only [loteDe, List.mem_filterMap, registroAceito] at hr
  obtain ⟨l, _, hl⟩ := hr
  rw [Option.filter_eq_some] at hl
  simpa using hl.2

theorem lacoExec_tentativas : ∀ (cs : List DadosCliente) (b : Banco),
    ∃ n, (lacoExec b cs).2.tentativas = b.tentativas ++ cs.take n
  | [], b => ⟨0, by simp [lacoExec]⟩
  | c :: cs, b => by
    cases hf : b.falhaExec b.tabela c with
    | some e => exact ⟨1, by simp [lacoExec, hf]⟩
    | none =>
      obtain ⟨n, hn⟩ := lacoExec_tentativas cs
        { b with tabela := b.tabela ++ [c], tentativas := b.tentativas ++ [c] }
      exact ⟨n + 1, by simp [lacoExec, hf, hn]⟩

theorem gravarClientes_tentativas (cs : List DadosCliente) (b : Banco) :
    ∃ n, (gravarClientes cs b).2.tentativas = b.tentativas ++ cs.take n := by
  unfold gravarClientes
  cases b.falhaOpen with
  | some e => exact ⟨0, by simp⟩
  | none =>
    cases b.falhaPrepare with
    | some e => exact ⟨0, by simp⟩
    | none => exact lacoExec_tentativas cs _

/-- C8: `processarArquivo` always returns, every record of the returned slice
has a `CPF` field that `validarCPF` accepts, and so has every record that
`stmt.Exec` is called with during the run. -/
theorem processarArquivo_so_validos (fs : SistemaArquivos) (nome : Str) (b : Banco) :
    ∃ dados err b1, processarArquivo fs nome b = some (dados, err, b1)
      ∧ (∀ r ∈ dados, validarCPF r.CPF = some true)
      ∧ ∃ enviados, b1.tentativas = b.tentativas ++ enviados
          ∧ ∀ r ∈ enviados, validarCPF r.CPF = some true := by
  cases hopen : fs nome with
  | error e =>
    exact ⟨[], some e, b, by simp [processarArquivo, hopen], by simp, [], by simp, by simp⟩
  | ok arq =>
    rw [processarArquivo_ok fs nome b arq hopen]
    cases arq.erroLeitura with
    | some e => exact ⟨[], some e, b, rfl, by simp, [], by simp, by simp⟩
    | none =>
      obtain ⟨n, hn⟩ := gravarClientes_tentativas (loteDe arq.linhas) b
      refine ⟨_, _, _, rfl, loteDe_valido arq.linhas, _, hn, ?_⟩
      intro r hr
      exact loteDe_valido arq.linhas r (List.mem_of_mem_take hr)

theorem registroAceito_curta {linha : Str} (h : (Fields (primeiroCampo linha)).length < 8) :
    registroAceito linha = none := by
  simp [registroAceito, tokens, registroDe_eq_none h, Option.filter]

/-- C10: for a line with at least 8 tokens, the record built by the loop body
has as its 8 fields the first 8 tokens of the line; joining them with single
spaces and splitting again with `strings.Fields` gives back the same 8 strings;
no field is empty and no field contains a whitespace rune. -/
theorem roundtrip_campos (linha : Str) (h : 8 ≤ (Fields (primeiroCampo linha)).length) :
    ∃ r, montarDadosCliente (Fields (primeiroCampo linha)) = some r
      ∧ (∀ dados, processarLinha linha dados
          = some (if validarCPF r.CPF = some true then dados ++ [r] else dados))
      ∧ Fields (JoinSpace r.campos) = r.campos
      ∧ r.campos = (Fields (primeiroCampo linha)).take 8
      ∧ (Fields (JoinSpace r.campos)).length = 8
      ∧ ∀ campo ∈ r.campos, campo ≠ [] ∧ ∀ c ∈ campo, isSpace c = false := by
  obtain ⟨r, hr, hreg, hcampos⟩ := montarDadosCliente_of_length h
  have hlimpo : ∀ campo ∈ r.campos, campo ≠ [] ∧ ∀ c ∈ campo, isSpace c = false := by
    intro campo hc
    rw [hcampos] at hc
    exact Fields_limpo _ campo (List.mem_of_mem_take hc)
  have hrt := Fields_JoinSpace r.campos hlimpo
  refine ⟨r, hr, ?_, hrt, hcampos, ?_, hlimpo⟩
  · intro dados
    rw [processarLinha_eq]
    simp only [registroAceito, tokens, hreg, Option.filter]
    by_cases hv : validarCPF r.CPF = some true <;> simp [hv]
  · rw [hrt]
    rfl

/-- Witness of C10 at a line with nine tokens and a second tab field. -/
theorem roundtrip_campos_witness :
    ∃ r, montarDadosCliente (Fields (primeiroCampo linhaB)) = some r
      ∧ (∀ dados, processarLinha linhaB dados
          = some (if validarCPF r.CPF = some true then dados ++ [r] else dados))
      ∧ Fields (JoinSpace r.campos) = r.campos
      ∧ r.campos = (Fields (primeiroCampo linhaB)).take 8
      ∧ (Fields (JoinSpace r.campos)).length = 8
      ∧ ∀ campo ∈ r.campos, campo ≠ [] ∧ ∀ c ∈ campo, isSpace c = false :=
  roundtrip_campos linhaB (by decide)

/-! ## Two runs on the same file -/

theorem lacoExec_aceita (cs : List DadosCliente) (b : Banco)
    (hexec : ∀ t c, b.falhaExec t c = none) :
    lacoExec b cs = (none, { b with tabela := b.tabela ++ cs, tentativas := b.tentativas ++ cs }) :=
  lacoExec_sucesso cs b (fun _ x _ => hexec _ x)

theorem gravarClientes_aceita (cs : List DadosCliente) (b : Banco)
    (hopen : b.falhaOpen = none) (hprep : b.falhaPrepare = none)
    (hexec : ∀ t c, b.falhaExec t c = none) :
    gravarClientes cs b = (none,
      { b with tabela := b.tabela ++ cs, tentativas := b.tentativas ++ cs,
               conexoes := b.conexoes + 1 }) := by
  have h := lacoExec_aceita cs { b with conexoes := b.conexoes + 1 } hexec
  simpa [gravarClientes, hopen, hprep] using h

/-- C11: with a store on which connecting, preparing and every insert succeed,
two runs of `processarArquivo` on the same file return the same slice and leave
the table equal to its former rows followed by that slice twice; when the file
is read without error the slice is the accepted batch of the file, so nothing is
deduplicated between the runs or inside a run. -/
theorem processarArquivo_duas_vezes (fs : SistemaArquivos) (nome : Str) (b : Banco)
    (hopen : b.falhaOpen = none) (hprep : b.falhaPrepare = none)
    (hexec : ∀ t c, b.falhaExec t c = none) :
    ∃ dados err b1 b2,
      processarArquivo fs nome b = some (dados, err, b1)
        ∧ processarArquivo fs nome b1 = some (dados, err, b2)
        ∧ b1.tabela = b.tabela ++ dados
        ∧ b2.tabela = b.tabela ++ dados ++ dados
        ∧ ∀ arq, fs nome = Except.ok arq → arq.erroLeitura = none →
            dados = loteDe arq.linhas ∧ err = none := by
  cases hfs : fs nome with
  | error e =>
    refine ⟨[], some e, b, b, by simp [processarArquivo, hfs], by simp [processarArquivo, hfs],
      by simp, by simp, ?_⟩
    intro arq h
    cases h
  | ok arq =>
    cases herr : arq.erroLeitura with
    | some e =>
      refine ⟨[], some e, b, b, ?_, ?_, by simp, by simp, ?_⟩
      · rw [processarArquivo_ok fs nome b arq hfs, herr]
      · rw [processarArquivo_ok fs nome b arq hfs, herr]
      · intro arq2 h2 hnone
        cases h2
        rw [herr] at hnone
        cases hnone
    | none =>
      have g1 := gravarClientes_aceita (loteDe arq.linhas) b hopen hprep hexec
      have g2 := gravarClientes_aceita (loteDe arq.linhas) (gravarClientes (loteDe arq.linhas) b).2
        (by rw [g1]; exact hopen) (by rw [g1]; exact hprep) (by rw [g1]; exact hexec)
      refine ⟨loteDe arq.linhas, none, (gravarClientes (loteDe arq.linhas) b).2,
        (gravarClientes (loteDe arq.linhas) (gravarClientes (loteDe arq.linhas) b).2).2,
        ?_, ?_, ?_, ?_, ?_⟩
      · rw [processarArquivo_ok fs nome b arq hfs, herr]
      · rw [processarArquivo_ok fs nome _ arq hfs, herr]
      · rw [g1]
      · rw [g2, g1]
      · intro arq2 h2 _
        cases h2
        exact ⟨rfl, rfl⟩

/-- Witness of C11: a file with the same accepted line twice, run twice on the
empty store, leaves four rows. -/
theorem processarArquivo_duas_vezes_witness :
    ∃ b1 b2,
      processarArquivo (umArquivo [linhaCabecalho, linhaA, linhaA] none)
          "uploaded_file.txt".toList bancoVazio = some ([registroA, registroA], none, b1)
        ∧ processarArquivo (umArquivo [linhaCabecalho, linhaA, linhaA] none)
          "uploaded_file.txt".toList b1 = some ([registroA, registroA], none, b2)
        ∧ b2.tabela = [registroA, registroA, registroA, registroA] := by
  obtain ⟨dados, err, b1, b2, h1, h2, _, ht2, hl⟩ :=
    processarArquivo_duas_vezes (umArquivo [linhaCabecalho, linhaA, linhaA] none)
      "uploaded_file.txt".toList bancoVazio rfl rfl (fun _ _ => rfl)
  obtain ⟨hd, he⟩ := hl (Arquivo.mk [linhaCabecalho, linhaA, linhaA] none) rfl rfl
  have hlote : loteDe [linhaCabecalho, linhaA, linhaA] = [registroA, registroA] := by decide
  rw [hlote] at hd
  subst hd
  subst he
  exact ⟨b1, b2, h1, h2, ht2⟩

/-! ## Totality and index safety -/

theorem len_removeNaoDigitos (s : Str) :
    len (removeNaoDigitos s) = (removeNaoDigitos s).length := by
  simp [len, bytes_of_digits (removeNaoDigitos_digits s)]

theorem byteAt_digit {D : Str} (hD : ∀ c ∈ D, naoDigito c = false) {i b : Nat}
    (h : byteAt D i = some b) : i < D.length ∧ 48 ≤ b ∧ b ≤ 57 := by
  simp only [byteAt, bytes_of_digits hD] at h
  rw [List.getElem?_eq_some] at h
  obtain ⟨hi, hb⟩ := h
  have hi2 : i < D.length := by simpa using hi
  have hc := (naoDigito_eq_false_iff _).1 (hD (D[i]) (List.getElem_mem _))
  simp only [List.getElem_map] at hb
  subst hb
  exact ⟨hi2, hc⟩

/-- C12: `validarCPF` returns a boolean on every input. When the stripped
string does not have exactly 11 bytes the result is false and no byte is read;
when it has 11 bytes every index `0..10` that the function reads is in range. -/
theorem validarCPF_total (s : Str) :
    (∃ r, validarCPF s = some r)
      ∧ (len (removeNaoDigitos s) ≠ 11 → validarCPF s = some false)
      ∧ (len (removeNaoDigitos s) = 11 →
          ∀ i, i ≤ 10 → ∃ byte, byteAt (removeNaoDigitos s) i = some byte) := by
  refine ⟨⟨_, validarCPF_eq s⟩, ?_, ?_⟩
  · intro h
    rw [validarCPF_unfold, if_pos h]
  · intro h i hi
    rw [len_removeNaoDigitos] at h
    exact ⟨_, byteAt_of_digits (removeNaoDigitos_digits s) (by omega)⟩

/-- C13: every character left by the removal of the matches of `\D` is one of
`'0'..'9'`; hence for every byte `cpf[i]` of the stripped string `strconv.Atoi`
of `string(cpf[i])` returns the digit's value with a nil error, and the byte
subtraction `cpf[i] - '0'` is that same value, between 0 and 9. -/
theorem removeNaoDigitos_so_digitos (s : Str) :
    (∀ c ∈ removeNaoDigitos s, '0' ≤ c ∧ c ≤ '9')
      ∧ ∀ i b, byteAt (removeNaoDigitos s) i = some b →
          Atoi (stringOfByte b) = (((b - 48 : Nat) : Int), none)
            ∧ b - 48 = digitoEm (removeNaoDigitos s) i
            ∧ subByte b 48 = b - 48
            ∧ subByte b 48 ≤ 9 := by
  have hD := removeNaoDigitos_digits s
  constructor
  · intro c hc
    have h := hD c hc
    have e := ehDigito_eq c
    rw [h] at e
    simpa [ehDigito] using e
  · intro i b hb
    obtain ⟨hi, h1, h2⟩ := byteAt_digit hD hb
    have hb2 := byteAt_of_digits hD hi
    rw [hb] at hb2
    have hval : b = digitoEm (removeNaoDigitos s) i + 48 := by simpa using hb2
    refine ⟨Atoi_digit h1 h2, by omega, ?_, ?_⟩
    · unfold subByte; omega
    · unfold subByte; omega

theorem processarLinha_total (linha : Str) (dados : List DadosCliente) :
    ∃ d, processarLinha linha dados = some d := ⟨_, processarLinha_eq linha dados⟩

/-- C16: the parsing loop never indexes out of range. `strings.Split(linha, "\t")`
is never empty, so `campos[0]` exists; whenever `len(parts) >= 8` the eight reads
`parts[0]..parts[7]` are in range; the loop body and the whole loop return for
every line and every list of lines; and a file with no line or with a header
only, read without error, gives the empty slice and a nil error without any
insert. -/
theorem lacoScan_sem_panico :
    (∀ linha : Str, SplitTab linha ≠ [] ∧ ∃ campo0, (SplitTab linha)[0]? = some campo0)
      ∧ (∀ parts : List Str, 8 ≤ parts.length →
          (∀ i, i < 8 → ∃ p, parts[i]? = some p) ∧ ∃ r, montarDadosCliente parts = some r)
      ∧ (∀ (linha : Str) (dados : List DadosCliente), ∃ d, processarLinha linha dados = some d)
      ∧ (∀ (linhas : List Str) (dados : List DadosCliente), ∃ d, lacoScan linhas dados = some d)
      ∧ (∀ (fs : SistemaArquivos) (nome : Str) (b : Banco) (arq : Arquivo),
          fs nome = Except.ok arq → arq.linhas.length ≤ 1 → arq.erroLeitura = none →
          arq.linhas.drop 1 = []
            ∧ ∃ b1, processarArquivo fs nome b = some ([], none, b1)
                ∧ b1.tabela = b.tabela ∧ b1.tentativas = b.tentativas) := by
  refine ⟨?_, ?_, ?_, ?_, ?_⟩
  · intro linha
    have h := SplitTab_head linha
    refine ⟨?_, _, h⟩
    intro hnil
    rw [hnil] at h
    simp at h
  · intro parts h8
    refine ⟨?_, ?_⟩
    · intro i hi
      exact ⟨parts[i], List.getElem?_eq_getElem (by omega)⟩
    · obtain ⟨r, hr, _⟩ := montarDadosCliente_of_length h8
      exact ⟨r, hr⟩
  · intro linha dados
    exact processarLinha_total linha dados
  · intro linhas dados
    exact ⟨_, lacoScan_eq linhas dados⟩
  · intro fs nome b arq hopen hlen hlido
    have hdrop : arq.linhas.drop 1 = [] := by
      rw [List.drop_eq_nil_iff]
      exact hlen
    have hlote : loteDe arq.linhas = [] := by
      simp [loteDe, hdrop]
    refine ⟨hdrop, ?_⟩
    rw [processarArquivo_ok fs nome b arq hopen, hlido, hlote]
    refine ⟨_, rfl, ?_, ?_⟩
    · unfold gravarClientes
      cases b.falhaOpen <;> cases b.falhaPrepare <;> simp [lacoExec]
    · unfold gravarClientes
      cases b.falhaOpen <;> cases b.falhaPrepare <;> simp [lacoExec]

/-! ## The check digits and single-digit alterations -/

theorem ehDigito_iff (c : Char) : ehDigito c = true ↔ 48 ≤ c.toNat ∧ c.toNat ≤ 57 := by
  rw [ehDigito_eq]
  have := naoDigito_eq_false_iff c
  cases h : naoDigito c <;> simp [h] at this ⊢ <;> omega

theorem dvSpec_le (n : Nat) : dvSpec n ≤ 9 := by
  unfold dvSpec
  split_ifs <;> omega

theorem toNat_charDigito {n : Nat} (h : n ≤ 9) : (charDigito n).toNat = 48 + n := by
  unfold charDigito
  interval_cases n <;> rfl

theorem valorDigito_charDigito {n : Nat} (h : n ≤ 9) : valorDigito (charDigito n) = n := by
  unfold valorDigito
  rw [toNat_charDigito h]
  have : '0'.toNat = 48 := rfl
  omega

theorem ehDigito_charDigito {n : Nat} (h : n ≤ 9) : ehDigito (charDigito n) = true := by
  rw [ehDigito_iff, toNat_charDigito h]
  omega

theorem charDigito_valorDigito {c : Char} (h : ehDigito c = true) :
    charDigito (valorDigito c) = c := by
  rw [ehDigito_iff] at h
  unfold charDigito valorDigito
  have h0 : '0'.toNat = 48 := rfl
  have : '0'.toNat + (c.toNat - '0'.toNat) = c.toNat := by omega
  rw [this, Char.ofNat_toNat]

theorem digitos_of_digits {s : Str} (h : ∀ c ∈ s, ehDigito c = true) : digitos s = s := by
  unfold digitos
  exact List.filter_eq_self.2 h

theorem digitoEm_append_left (P r : Str) {i : Nat} (hi : i < P.length) :
    digitoEm (P ++ r) i = digitoEm P i := by
  unfold digitoEm
  simp [List.getD_eq_getElem?_getD, List.getElem?_append_left hi]

theorem somaSpec_append (P r : Str) (hlen : P.length = 9) (peso : Nat) :
    somaSpec (P ++ r) peso = somaSpec P peso := by
  unfold somaSpec
  congr 1
  apply List.map_congr_left
  intro i hi
  rw [List.mem_range] at hi
  rw [digitoEm_append_left P r (by omega)]

theorem digitoEm_nove (P : Str) (x y : Char) (hlen : P.length = 9) :
    digitoEm (P ++ [x, y]) 9 = valorDigito x ∧ digitoEm (P ++ [x, y]) 10 = valorDigito y := by
  unfold digitoEm
  have e9 : (P ++ [x, y])[9]? = some x := by
    rw [List.getElem?_append_right (by omega), hlen]
    rfl
  have e10 : (P ++ [x, y])[10]? = some y := by
    rw [List.getElem?_append_right (by omega), hlen]
    rfl
  simp only [List.getD_eq_getElem?_getD, e9, e10, Option.getD_some, and_self]

theorem aceito_iff_candidato (P : Str) (x y : Char) (hP : ∀ c ∈ P, ehDigito c = true)
    (hlen : P.length = 9) (hx : ehDigito x = true) (hy : ehDigito y = true) :
    validarCPF (P ++ [x, y]) = some true ↔
      (¬ ∃ d, P ++ [x, y] = List.replicate 11 d) ∧ P ++ [x, y] = candidato P := by
  have hall : ∀ c ∈ P ++ [x, y], ehDigito c = true := by
    intro c hc
    simp only [List.mem_append, List.mem_cons, List.mem_singleton, List.not_mem_nil,
      or_false] at hc
    rcases hc with hc | hc | hc
    · exact hP c hc
    · rw [hc]; exact hx
    · rw [hc]; exact hy
  have hd := digitos_of_digits hall
  obtain ⟨h9, h10⟩ := digitoEm_nove P x y hlen
  rw [validarCPF_eq]
  simp only [decide_eq_true_eq, Option.some.injEq, cpfAceito, hd, h9, h10,
    somaSpec_append P [x, y] hlen]
  have hex : (∃ d ∈ P ++ [x, y], P ++ [x, y] = List.replicate 11 d)
      ↔ ∃ d, P ++ [x, y] = List.replicate 11 d := by
    constructor
    · rintro ⟨d, _, h⟩
      exact ⟨d, h⟩
    · rintro ⟨d, h⟩
      exact ⟨d, by rw [h]; simp, h⟩
  rw [hex]
  constructor
  · rintro ⟨_, hrep, e1, e2⟩
    refine ⟨hrep, ?_⟩
    unfold candidato
    rw [← e1, ← e2, charDigito_valorDigito hx, charDigito_valorDigito hy]
  · rintro ⟨hrep, hc⟩
    unfold candidato at hc
    have hc2 := List.append_cancel_left hc
    simp only [List.cons.injEq, and_true] at hc2
    refine ⟨by simp [hlen], hrep, ?_, ?_⟩
    · rw [hc2.1, valorDigito_charDigito (dvSpec_le _)]
    · rw [hc2.2, valorDigito_charDigito (dvSpec_le _)]

theorem onze_digitos_split {t P : Str} (hlen : t.length = 11) (hpre : t.take 9 = P) :
    ∃ x y, t = P ++ [x, y] := by
  have h := List.take_append_drop 9 t
  have hd : (t.drop 9).length = 2 := by simp [hlen]
  match hdrop : t.drop 9, hd with
  | [x, y], _ =>
    refine ⟨x, y, ?_⟩
    rw [← h, hpre, hdrop]

/-- C15: for nine decimal digits `P` the two check digits are computed from `P`
alone, so `candidato P` is the only 11-digit string with prefix `P` that
`validarCPF` can accept: every accepted one equals it, two accepted ones are
equal, and it is accepted exactly when it is not eleven copies of one digit. -/
theorem validarCPF_um_candidato (P : Str) (hP : ∀ c ∈ P, ehDigito c = true)
    (hlen : P.length = 9) :
    ((candidato P).length = 11 ∧ (candidato P).take 9 = P
        ∧ ∀ c ∈ candidato P, ehDigito c = true)
      ∧ (∀ t : Str, (∀ c ∈ t, ehDigito c = true) → t.length = 11 → t.take 9 = P →
          validarCPF t = some true → t = candidato P)
      ∧ (∀ t1 t2 : Str, (∀ c ∈ t1, ehDigito c = true) → t1.length = 11 → t1.take 9 = P →
          (∀ c ∈ t2, ehDigito c = true) → t2.length = 11 → t2.take 9 = P →
          validarCPF t1 = some true → validarCPF t2 = some true → t1 = t2)
      ∧ ((¬ ∃ d, candidato P = List.replicate 11 d) → validarCPF (candidato P) = some true)
      ∧ ((∃ d, candidato P = List.replicate 11 d) → validarCPF (candidato P) = some false) := by
  have hx := ehDigito_charDigito (dvSpec_le (somaSpec P 10))
  have hy := ehDigito_charDigito (dvSpec_le (somaSpec P 11))
  have hiff := aceito_iff_candidato P _ _ hP hlen hx hy
  have huniq : ∀ t : Str, (∀ c ∈ t, ehDigito c = true) → t.length = 11 → t.take 9 = P →
      validarCPF t = some true → t = candidato P := by
    intro t ht hl hpre hac
    obtain ⟨x, y, rfl⟩ := onze_digitos_split hl hpre
    have hx2 := ht x (by simp)
    have hy2 := ht y (by simp)
    exact ((aceito_iff_candidato P x y hP hlen hx2 hy2).1 hac).2
  refine ⟨⟨?_, ?_, ?_⟩, huniq, ?_, ?_, ?_⟩
  · simp [candidato, hlen]
  · simp [candidato, ← hlen]
  · intro c hc
    simp only [candidato, List.mem_append, List.mem_cons, List.mem_singleton,
      List.not_mem_nil, or_false] at hc
    rcases hc with hc | hc | hc
    · exact hP c hc
    · rw [hc]; exact hx
    · rw [hc]; exact hy
  · intro t1 t2 h1 l1 p1 h2 l2 p2 a1 a2
    rw [huniq t1 h1 l1 p1 a1, huniq t2 h2 l2 p2 a2]
  · intro hrep
    exact hiff.2 ⟨hrep, rfl⟩
  · intro hrep
    have hne : validarCPF (candidato P) ≠ some true := fun h => (hiff.1 h).1 hrep
    rw [validarCPF_eq] at hne ⊢
    cases h : decide (cpfAceito (candidato P))
    · rfl
    · rw [h] at hne
      exact absurd rfl hne

/-- Witness of C15 at the prefix `111444777`: the one accepted completion is
`11144477730`. -/
theorem validarCPF_um_candidato_witness :
    candidato "111444777".toList = "11144477730".toList
      ∧ validarCPF (candidato "111444777".toList) = some true :=
  ⟨by decide,
    (validarCPF_um_candidato "111444777".toList (by decide) (by decide)).2.2.2.1 (by
      rintro ⟨d, h⟩
      have h0 := congrArg (fun l => l.getD 0 'x') h
      have h3 := congrArg (fun l => l.getD 3 'x') h
      have e0 : (candidato "111444777".toList).getD 0 'x' = '1' := by decide
      have e3 : (candidato "111444777".toList).getD 3 'x' = '4' := by decide
      simp only [e0, e3] at h0 h3
      have r0 : (List.replicate 11 d).getD 0 'x' = d := rfl
      have r3 : (List.replicate 11 d).getD 3 'x' = d := rfl
      rw [r0] at h0
      rw [r3, ← h0] at h3
      exact absurd h3 (by decide))⟩

theorem valorDigito_le {c : Char} (h : ehDigito c = true) : valorDigito c ≤ 9 := by
  rw [ehDigito_iff] at h
  unfold valorDigito
  have : '0'.toNat = 48 := rfl
  omega

theorem valorDigito_inj {c d : Char} (hc : ehDigito c = true) (hd : ehDigito d = true)
    (h : valorDigito c = valorDigito d) : c = d := by
  rw [← charDigito_valorDigito hc, ← charDigito_valorDigito hd, h]

theorem aceito_digitos {s : Str} (hs : ∀ x ∈ s, ehDigito x = true)
    (hac : validarCPF s = some true) :
    digitoEm s 9 = dvSpec (somaSpec s 10) ∧ digitoEm s 10 = dvSpec (somaSpec s 11) := by
  rw [validarCPF_eq] at hac
  have h : cpfAceito s := by simpa using hac
  unfold cpfAceito at h
  rw [digitos_of_digits hs] at h
  exact ⟨h.2.2.1, h.2.2.2⟩

theorem rejeitado_digitos {s : Str} (hs : ∀ x ∈ s, ehDigito x = true)
    (h : ¬ (digitoEm s 9 = dvSpec (somaSpec s 10) ∧ digitoEm s 10 = dvSpec (somaSpec s 11))) :
    validarCPF s = some false := by
  rw [validarCPF_eq, decide_eq_false]
  intro hac
  unfold cpfAceito at hac
  rw [digitos_of_digits hs] at hac
  exact h ⟨hac.2.2.1, hac.2.2.2⟩

theorem somaSpec_onze (c0 c1 c2 c3 c4 c5 c6 c7 c8 c9 c10 : Char) (peso : Nat) :
    somaSpec [c0, c1, c2, c3, c4, c5, c6, c7, c8, c9, c10] peso
      = valorDigito c0 * peso + valorDigito c1 * (peso - 1) + valorDigito c2 * (peso - 2)
        + valorDigito c3 * (peso - 3) + valorDigito c4 * (peso - 4) + valorDigito c5 * (peso - 5)
        + valorDigito c6 * (peso - 6) + valorDigito c7 * (peso - 7)
        + valorDigito c8 * (peso - 8) := by
  have hr : List.range 9 = [0, 1, 2, 3, 4, 5, 6, 7, 8] := by decide
  simp only [somaSpec, hr, List.map_cons, List.map_nil, List.sum_cons, List.sum_nil, digitoEm,
    List.getD_cons_zero, List.getD_cons_succ, Nat.sub_zero, Nat.add_zero, Nat.add_assoc]

theorem digitoEm_onze (c0 c1 c2 c3 c4 c5 c6 c7 c8 c9 c10 : Char) :
    digitoEm [c0, c1, c2, c3, c4, c5, c6, c7, c8, c9, c10] 9 = valorDigito c9
      ∧ digitoEm [c0, c1, c2, c3, c4, c5, c6, c7, c8, c9, c10] 10 = valorDigito c10
      ∧ digitoEm [c0, c1, c2, c3, c4, c5, c6, c7, c8, c9, c10] 0 = valorDigito c0
      ∧ digitoEm [c0, c1, c2, c3, c4, c5, c6, c7, c8, c9, c10] 5 = valorDigito c5 := by
  simp only [digitoEm, List.getD_cons_zero, List.getD_cons_succ, and_self]

theorem dvSpec_eq_cases {T p q : Nat} (h : dvSpec (T + p) = dvSpec (T + q)) :
    mesmoDigito p q (decide (dvSpec (T + p) = 0)) = true := by
  have h' : p % 11 = q % 11
      ∨ (dvSpec (T + p) = 0 ∧ ((p + 1) % 11 = q % 11 ∨ p % 11 = (q + 1) % 11)) := by
    unfold dvSpec at h ⊢
    split_ifs at h ⊢ <;> omega
  simpa [mesmoDigito] using h'

set_option maxRecDepth 1000000 in
theorem nucleo_fin : ∀ w : Fin 11, ∀ a b : Fin 10, ∀ z9 z10 : Bool, 2 ≤ w.val → a ≠ b →
    mesmoDigito (a.val * w.val) (b.val * w.val) z9 = true →
    mesmoDigito (a.val * (w.val + 1)) (b.val * (w.val + 1)) z10 = true →
    trocaInvisivel w.val a.val b.val z9 z10 = true := by
  decide

theorem nucleo_troca (w T1 T2 a b v9 v10 : Nat) (hw1 : 2 ≤ w) (hw2 : w ≤ 10)
    (ha : a ≤ 9) (hb : b ≤ 9) (hab : a ≠ b)
    (e9 : v9 = dvSpec (T1 + a * w)) (e10 : v10 = dvSpec (T2 + a * (w + 1)))
    (f9 : v9 = dvSpec (T1 + b * w)) (f10 : v10 = dvSpec (T2 + b * (w + 1))) :
    (w = 10 ∧ v9 = 0 ∧ (b = a + 1 ∨ a = b + 1))
      ∨ (w = 5 ∧ v9 = 0 ∧ v10 = 0 ∧ (b = a + 2 ∨ a = b + 2 ∨ b = a + 9 ∨ a = b + 9)) := by
  have h1 := dvSpec_eq_cases (e9.symm.trans f9)
  have h2 := dvSpec_eq_cases (e10.symm.trans f10)
  rw [← e9] at h1
  rw [← e10] at h2
  have h := nucleo_fin ⟨w, by omega⟩ ⟨a, by omega⟩ ⟨b, by omega⟩ _ _ hw1
    (by intro hc; exact hab (congrArg Fin.val hc)) h1 h2
  simp only [trocaInvisivel, Bool.or_eq_true, Bool.and_eq_true, beq_iff_eq,
    decide_eq_true_eq] at h
  tauto

theorem onze_explicito {s : Str} (hlen : s.length = 11) :
    ∃ c0 c1 c2 c3 c4 c5 c6 c7 c8 c9 c10, s = [c0, c1, c2, c3, c4, c5, c6, c7, c8, c9, c10] := by
  match s, hlen with
  | [c0, c1, c2, c3, c4, c5, c6, c7, c8, c9, c10], _ =>
    exact ⟨c0, c1, c2, c3, c4, c5, c6, c7, c8, c9, c10, rfl⟩

theorem valorDigito_zero : valorDigito '0' = 0 := rfl

theorem somaSpec_set {s : Str} (hlen : s.length = 11) (p : Nat) (hp : p < 9) (c : Char)
    (peso : Nat) :
    somaSpec (s.set p c) peso = somaSpec (s.set p '0') peso + valorDigito c * (peso - p) := by
  obtain ⟨c0, c1, c2, c3, c4, c5, c6, c7, c8, c9, c10, rfl⟩ := onze_explicito hlen
  interval_cases p <;>
    simp only [List.set_cons_zero, List.set_cons_succ, somaSpec_onze, valorDigito_zero,
      Nat.zero_mul, Nat.sub_zero] <;> omega

theorem digitoEm_set_ne (s : Str) {p i : Nat} (h : p ≠ i) (c : Char) :
    digitoEm (s.set p c) i = digitoEm s i := by
  unfold digitoEm
  simp [List.getD_eq_getElem?_getD, List.getElem?_set_ne h]

theorem digitoEm_set_eq (s : Str) {p : Nat} (h : p < s.length) (c : Char) :
    digitoEm (s.set p c) p = valorDigito c := by
  unfold digitoEm
  simp [List.getD_eq_getElem?_getD, List.getElem?_set_self h]

theorem somaSpec_set_alto (s : Str) (p : Nat) (hp : 9 ≤ p) (c : Char)
    (peso : Nat) : somaSpec (s.set p c) peso = somaSpec s peso := by
  unfold somaSpec
  congr 1
  apply List.map_congr_left
  intro i hi
  rw [List.mem_range] at hi
  have hne : p ≠ i := by omega
  rw [digitoEm_set_ne s hne c]

theorem set_getD_self (s : Str) {p : Nat} (h : p < s.length) : s.set p (s.getD p '0') = s := by
  have e : s.getD p '0' = s[p] := by
    simp [List.getD_eq_getElem?_getD, List.getElem?_eq_getElem h]
  rw [e]
  apply List.ext_getElem?
  intro i
  by_cases hi : p = i
  · subst hi
    rw [List.getElem?_set_self h, List.getElem?_eq_getElem h]
  · rw [List.getElem?_set_ne hi]

/-- C14 as stated fails: two accepted 11-digit strings that differ in one digit
only, the first digit changed by 1 and the sixth digit changed by 2. -/
theorem validarCPF_troca_aceita :
    (validarCPF "70499962206".toList = some true
        ∧ "70499962206".toList.set 0 '8' = "80499962206".toList
        ∧ validarCPF ("70499962206".toList.set 0 '8') = some true)
      ∧ (validarCPF "31617487600".toList = some true
        ∧ "31617487600".toList.set 5 '6' = "31617687600".toList
        ∧ validarCPF ("31617487600".toList.set 5 '6') = some true) := by
  decide

/-- C14, amended: in an accepted 11-digit string, replacing one digit by a
different decimal digit gives a rejected string, unless the first check digit is
0 and the first digit is changed by 1, or both check digits are 0 and the sixth
digit is changed by 2 or by 9; and `11144477736` is rejected. -/
theorem validarCPF_detecta_troca (s : Str) (p : Nat) (c : Char)
    (hs : ∀ x ∈ s, ehDigito x = true) (hlen : s.length = 11)
    (hac : validarCPF s = some true)
    (hp : p < 11) (hc : ehDigito c = true) (hne : c ≠ s.getD p '0')
    (h0 : p = 0 → digitoEm s 9 = 0 →
      valorDigito c ≠ digitoEm s 0 + 1 ∧ valorDigito c + 1 ≠ digitoEm s 0)
    (h5 : p = 5 → digitoEm s 9 = 0 → digitoEm s 10 = 0 →
      valorDigito c ≠ digitoEm s 5 + 2 ∧ valorDigito c + 2 ≠ digitoEm s 5
        ∧ valorDigito c ≠ digitoEm s 5 + 9 ∧ valorDigito c + 9 ≠ digitoEm s 5) :
    validarCPF (s.set p c) = some false
      ∧ validarCPF "11144477736".toList = some false := by
  refine ⟨?_, by decide⟩
  have hs' : ∀ x ∈ s.set p c, ehDigito x = true := by
    intro x hx
    rcases List.mem_or_eq_of_mem_set hx with h | h
    · exact hs x h
    · rw [h]; exact hc
  have hpl : p < s.length := by omega
  have hold : s.getD p '0' = s[p] := by
    simp [List.getD_eq_getElem?_getD, List.getElem?_eq_getElem hpl]
  have hod : ehDigito (s.getD p '0') = true := by
    rw [hold]
    exact hs _ (List.getElem_mem _)
  have hab : digitoEm s p ≠ valorDigito c := by
    intro h
    exact hne (valorDigito_inj hc hod h.symm)
  obtain ⟨e9, e10⟩ := aceito_digitos hs hac
  apply rejeitado_digitos hs'
  rintro ⟨f9, f10⟩
  by_cases hp9 : p < 9
  · have s1 := somaSpec_set hlen p hp9 (s.getD p '0') 10
    have s2 := somaSpec_set hlen p hp9 (s.getD p '0') 11
    rw [set_getD_self s hpl] at s1 s2
    have t1 := somaSpec_set hlen p hp9 c 10
    have t2 := somaSpec_set hlen p hp9 c 11
    have hw : 11 - p = 10 - p + 1 := by omega
    rw [digitoEm_set_ne s (by omega) c, t1] at f9
    rw [digitoEm_set_ne s (by omega) c, t2, hw] at f10
    rw [s1] at e9
    rw [s2, hw] at e10
    have h := nucleo_troca (10 - p) _ _ (digitoEm s p) (valorDigito c) _ _ (by omega) (by omega)
      (valorDigito_le hod) (valorDigito_le hc) hab e9 e10 f9 f10
    rcases h with ⟨hw10, z9, hd⟩ | ⟨hw5, z9, z10, hd⟩
    · have hp0 : p = 0 := by omega
      subst hp0
      have := h0 rfl z9
      omega
    · have hp5 : p = 5 := by omega
      subst hp5
      have := h5 rfl z9 z10
      omega
  · have hcase : p = 9 ∨ p = 10 := by omega
    rw [somaSpec_set_alto s p (by omega) c] at f9 f10
    rcases hcase with h | h
    · subst h
      rw [digitoEm_set_eq s hpl c, ← e9] at f9
      exact hab f9.symm
    · subst h
      rw [digitoEm_set_eq s hpl c, ← e10] at f10
      exact hab f10.symm

/-- Witness of the amended C14: the sixth digit of the accepted `31617487600`
changed by 1. -/
theorem validarCPF_detecta_troca_witness :
    validarCPF ("31617487600".toList.set 5 '5') = some false
      ∧ validarCPF "11144477736".toList = some false :=
  validarCPF_detecta_troca "31617487600".toList 5 '5' (by decide) (by decide) (by decide)
    (by decide) (by decide) (by decide) (by decide) (by decide)

/-! ## Short lines and the size limit of the scanner -/

theorem fieldsLoop_primeiroCampo_cr (m : Str) : ∀ tok : Str,
    fieldsLoop (primeiroCampo (m ++ [Char.ofNat 13])) tok = fieldsLoop (primeiroCampo m) tok := by
  have hsp : isSpace (Char.ofNat 13) = true := by decide
  have hnt : (Char.ofNat 13 != Char.ofNat 9) = true := by decide
  induction m with
  | nil =>
    intro tok
    have e : primeiroCampo ([] ++ [Char.ofNat 13]) = [Char.ofNat 13] := by decide
    have e0 : primeiroCampo [] = [] := rfl
    rw [e, e0]
    by_cases h : tok = []
    · simp only [fieldsLoop, hsp, if_true, h]
    · simp only [fieldsLoop, hsp, if_true, if_neg h]
  | cons c m ih =>
    intro tok
    by_cases hc : (c != Char.ofNat 9) = true
    · have e1 : primeiroCampo (c :: m ++ [Char.ofNat 13])
          = c :: primeiroCampo (m ++ [Char.ofNat 13]) := by
        simp only [primeiroCampo, List.cons_append, List.takeWhile_cons, hc, if_true]
      have e2 : primeiroCampo (c :: m) = c :: primeiroCampo m := by
        simp only [primeiroCampo, List.takeWhile_cons, hc, if_true]
      rw [e1, e2]
      by_cases hs : isSpace c = true
      · by_cases ht : tok = []
        · simp only [fieldsLoop, hs, if_true, ht, ih]
        · simp only [fieldsLoop, hs, if_true, if_neg ht, ih]
      · simp only [fieldsLoop, hs, ih]
    · have e1 : primeiroCampo (c :: m ++ [Char.ofNat 13]) = [] := by
        simp only [primeiroCampo, List.cons_append, List.takeWhile_cons, hc]
        rfl
      have e2 : primeiroCampo (c :: m) = [] := by
        simp only [primeiroCampo, List.takeWhile_cons, hc]
        rfl
      rw [e1, e2]

theorem dropCR_cases (linha : Str) :
    dropCR linha = linha ∨ linha = dropCR linha ++ [Char.ofNat 13] := by
  unfold dropCR
  by_cases h : linha.getLast? = some (Char.ofNat 13)
  · right
    rw [if_pos h]
    exact (List.dropLast_append_getLast? _ h).symm
  · left
    rw [if_neg h]

theorem tokens_dropCR (linha : Str) :
    Fields (primeiroCampo (dropCR linha)) = Fields (primeiroCampo linha) := by
  rcases dropCR_cases linha with h | h
  · rw [h]
  · conv_rhs => rw [h]
    exact (fieldsLoop_primeiroCampo_cr (dropCR linha) []).symm

theorem escanear_cons {x : Str} (hx : ¬ MaxScanTokenSize ≤ len x) (resto : List Str)
    (erro : Option Erro) :
    escanear (x :: resto) erro
      = { linhas := dropCR x :: (escanear resto erro).linhas,
          erroLeitura := (escanear resto erro).erroLeitura } := by
  simp only [escanear, if_neg hx]

theorem escanear_cons_longo {x : Str} (hx : MaxScanTokenSize ≤ len x) (resto : List Str)
    (erro : Option Erro) :
    escanear (x :: resto) erro = { linhas := [], erroLeitura := some Erro.tokenLongo } := by
  simp only [escanear, if_pos hx]

theorem escanear_insere (linha : Str) (depois : List Str) (erro : Option Erro)
    (hlen : len linha < MaxScanTokenSize)
    (hcurta : (Fields (primeiroCampo linha)).length < 8) : ∀ antes : List Str,
    (escanear (antes ++ linha :: depois) erro).erroLeitura
        = (escanear (antes ++ depois) erro).erroLeitura
      ∧ (escanear (antes ++ linha :: depois) erro).linhas.filterMap registroAceito
        = (escanear (antes ++ depois) erro).linhas.filterMap registroAceito := by
  intro antes
  induction antes with
  | nil =>
    have hr : registroAceito (dropCR linha) = none :=
      registroAceito_curta (by rw [tokens_dropCR]; exact hcurta)
    rw [List.nil_append, List.nil_append, escanear_cons (Nat.not_le.2 hlen)]
    simp only [List.filterMap_cons, hr, and_self]
  | cons x xs ih =>
    rw [List.cons_append, List.cons_append]
    by_cases hx : MaxScanTokenSize ≤ len x
    · rw [escanear_cons_longo hx, escanear_cons_longo hx]
      exact ⟨rfl, rfl⟩
    · rw [escanear_cons hx, escanear_cons hx]
      simp only [List.filterMap_cons, ih.1, ih.2, and_self]

theorem len_replicate_x (n : Nat) : len (List.replicate n 'x') = n := by
  induction n with
  | zero => rfl
  | succ n ih =>
    have h : len ('x' :: List.replicate n 'x') = len (List.replicate n 'x') + 1 := by
      simp only [len, bytes, List.length_append]
      have : (utf8 'x').length = 1 := by decide
      omega
    rw [List.replicate_succ, h, ih]

theorem Fields_replicate_x (n : Nat) (hn : 0 < n) :
    Fields (primeiroCampo (List.replicate n 'x')) = [List.replicate n 'x'] := by
  have hp : primeiroCampo (List.replicate n 'x') = List.replicate n 'x' := by
    unfold primeiroCampo
    rw [List.takeWhile_eq_self_iff]
    intro c hc
    rw [List.eq_of_mem_replicate hc]
    decide
  have hs : ∀ c ∈ List.replicate n 'x', isSpace c = false := by
    intro c hc
    rw [List.eq_of_mem_replicate hc]
    decide
  have h := fieldsLoop_append (List.replicate n 'x') hs [] []
  simp only [List.append_nil, List.nil_append] at h
  have hne : List.replicate n 'x' ≠ [] := by
    cases n with
    | zero => omega
    | succ k => simp [List.replicate_succ]
  rw [hp, Fields, h]
  simp [fieldsLoop, hne]

/-- C9 as stated fails: a line of one token of 65536 bytes, put between two
accepted lines, is not dropped. Without it the run returns the two records and
a nil error; with it the scanner stops at that line with `bufio.ErrTooLong`,
and the run returns the nil slice and that error and inserts nothing. -/
theorem processarArquivo_linha_longa :
    (Fields (primeiroCampo linhaLonga)).length = 1
      ∧ (∃ b1, processarArquivo
            (arquivoCom { linhas := [linhaCabecalho, linhaA, linhaB], erroLeitura := none })
            "uploaded_file.txt".toList bancoVazio = some ([registroA, registroB], none, b1))
      ∧ processarArquivo
            (arquivoCom { linhas := [linhaCabecalho, linhaA, linhaLonga, linhaB],
                          erroLeitura := none })
            "uploaded_file.txt".toList bancoVazio
          = some ([], some Erro.tokenLongo, bancoVazio) := by
  have hlonga : MaxScanTokenSize ≤ len linhaLonga := by
    unfold linhaLonga
    rw [len_replicate_x]
    decide
  have hcab : ¬ MaxScanTokenSize ≤ len linhaCabecalho := by decide
  have hA : ¬ MaxScanTokenSize ≤ len linhaA := by decide
  have hB : ¬ MaxScanTokenSize ≤ len linhaB := by decide
  refine ⟨?_, ?_, ?_⟩
  · unfold linhaLonga
    rw [Fields_replicate_x 65536 (by decide)]
    rfl
  · have e : escanear [linhaCabecalho, linhaA, linhaB] none
        = { linhas := [linhaCabecalho, linhaA, linhaB], erroLeitura := none } := by
      have d1 : dropCR linhaCabecalho = linhaCabecalho := by decide
      have d2 : dropCR linhaA = linhaA := by decide
      have d3 : dropCR linhaB = linhaB := by decide
      rw [escanear_cons hcab, escanear_cons hA, escanear_cons hB, d1, d2, d3]
      rfl
    have hl : loteDe [linhaCabecalho, linhaA, linhaB] = [registroA, registroB] := by decide
    rw [processarArquivo_ok _ _ _ (escanear [linhaCabecalho, linhaA, linhaB] none) rfl, e]
    simp only [hl]
    exact ⟨_, rfl⟩
  · have e : escanear [linhaCabecalho, linhaA, linhaLonga, linhaB] none
        = { linhas := [dropCR linhaCabecalho, dropCR linhaA],
            erroLeitura := some Erro.tokenLongo } := by
      rw [escanear_cons hcab, escanear_cons hA, escanear_cons_longo hlonga]
    rw [processarArquivo_ok _ _ _ (escanear [linhaCabecalho, linhaA, linhaLonga, linhaB] none)
      rfl, e]

/-- C9, amended: a line of fewer than `MaxScanTokenSize` = 65536 bytes whose
first tab-delimited field has fewer than 8 whitespace-separated tokens,
inserted anywhere after the header, changes nothing: `processarArquivo` returns,
and returns the same slice, the same error and the same store as without the
line, whatever else the line contains. -/
theorem processarArquivo_ignora_linha_curta (fs fs2 : SistemaArquivos) (nome : Str) (b : Banco)
    (cabecalho : Str) (antes depois : List Str) (linha : Str) (erro : Option Erro)
    (hlen : len linha < MaxScanTokenSize)
    (hcurta : (Fields (primeiroCampo linha)).length < 8)
    (h1 : fs nome = Except.ok (escanear (cabecalho :: (antes ++ depois)) erro))
    (h2 : fs2 nome = Except.ok (escanear (cabecalho :: (antes ++ linha :: depois)) erro)) :
    processarArquivo fs2 nome b = processarArquivo fs nome b
      ∧ ∃ r, processarArquivo fs nome b = some r := by
  rw [processarArquivo_ok fs nome b _ h1, processarArquivo_ok fs2 nome b _ h2]
  obtain ⟨he, hl⟩ := escanear_insere linha depois erro hlen hcurta antes
  have key : (escanear (cabecalho :: (antes ++ linha :: depois)) erro).erroLeitura
        = (escanear (cabecalho :: (antes ++ depois)) erro).erroLeitura
      ∧ loteDe (escanear (cabecalho :: (antes ++ linha :: depois)) erro).linhas
        = loteDe (escanear (cabecalho :: (antes ++ depois)) erro).linhas := by
    by_cases hc : MaxScanTokenSize ≤ len cabecalho
    · rw [escanear_cons_longo hc, escanear_cons_longo hc]
      exact ⟨rfl, rfl⟩
    · rw [escanear_cons hc, escanear_cons hc]
      exact ⟨he, by simp only [loteDe, List.drop_succ_cons, List.drop_zero, hl]⟩
  rw [key.1, key.2]
  refine ⟨rfl, ?_⟩
  cases (escanear (cabecalho :: (antes ++ depois)) erro).erroLeitura <;> exact ⟨_, rfl⟩

/-- Witness of the amended C9: a seven-token line put between two accepted
lines of a file read without error. -/
theorem processarArquivo_ignora_linha_curta_witness :
    processarArquivo
        (arquivoCom { linhas := linhaCabecalho :: ([linhaA] ++ linhaCurta :: [linhaB]),
                      erroLeitura := none })
        "uploaded_file.txt".toList bancoVazio
      = processarArquivo
        (arquivoCom { linhas := linhaCabecalho :: ([linhaA] ++ [linhaB]), erroLeitura := none })
        "uploaded_file.txt".toList bancoVazio :=
  (processarArquivo_ignora_linha_curta
    (arquivoCom { linhas := linhaCabecalho :: ([linhaA] ++ [linhaB]), erroLeitura := none })
    (arquivoCom { linhas := linhaCabecalho :: ([linhaA] ++ linhaCurta :: [linhaB]),
                  erroLeitura := none })
    "uploaded_file.txt".toList bancoVazio linhaCabecalho [linhaA] [linhaB] linhaCurta none
    (by decide) (by decide) rfl rfl).1

end GolangCuba
